import Mathlib

/-!
Verification development for the document-ingestion pipeline of the
Groq_LLM_chatbot repository (`rag_pipeline.py`, `file_processor.py`).

Python strings are modelled as `List Char` (`Str`), file contents as lists
of byte values (`List Nat`), and the two persistent stores (the chroma
vector collection and the neo4j property graph) as explicit record states.
External network calls (openai embeddings, pypdf extraction, pytesseract
OCR) are modelled as oracle functions passed in as parameters; the
filesystem is modelled as a partial map from path to raw bytes.

Library semantics that the source relies on are modelled as documented:
  * `chromadb` `Collection.add` inserts only ids not already present; a
    record whose id already exists is left unchanged (chroma logs a
    warning and skips the duplicate — overwriting needs the separate
    `upsert` API which this code never calls).  `Collection.get()`
    returns the stored records' ids and, per record, the metadata dict
    supplied at insertion time — `None` when no metadata was supplied,
    as in this codebase.  `Collection.delete(ids)` removes the records
    with those ids.
  * Cypher `MERGE` is match-or-create on exactly the properties given in
    the pattern; `DETACH DELETE` removes a node and its incident
    relationships (not the nodes at the far ends).
  * Python `range(0, n, s)` for `s > 0` yields the multiples of `s`
    below `n` in ascending order; for `s = 0` the `range` constructor
    raises `ValueError`; for `s < 0` (and stop `n ≥ 0`) it is empty.
  * Opening a file in text mode performs universal-newline translation
    (`"\r\n"` and lone `"\r"` become `"\n"`); `encoding='utf-8'` raises
    `UnicodeDecodeError` on invalid UTF-8; `encoding='latin-1'` decodes
    every byte; `encoding='cp1252'` is undefined exactly on the five
    bytes 0x81, 0x8D, 0x8F, 0x90, 0x9D.
-/

/-- Python `str`, modelled as its list of characters. -/
abbrev Str := List Char

/-- The Python exceptions that the modelled code can raise. -/
inductive PyErr where
  | typeError
  | keyError
  | valueError
  | unicodeDecodeError
  | fileNotFoundError
  | apiError
deriving DecidableEq, Repr

/-- Byte-level UTF-8 decoder (the behaviour of Python `bytes.decode('utf-8')`):
returns `none` exactly on invalid UTF-8 (overlong forms, surrogates, out of
range code points, truncated sequences are all rejected). -/
def utf8Decode : List Nat → Option (List Char)
  | [] => some []
  | b :: rest =>
    if b < 0x80 then
      (utf8Decode rest).map (fun cs => Char.ofNat b :: cs)
    else if b < 0xC2 then
      none
    else if b ≤ 0xDF then
      match rest with
      | c1 :: rest2 =>
        if 0x80 ≤ c1 ∧ c1 ≤ 0xBF then
          (utf8Decode rest2).map (fun cs => Char.ofNat ((b - 0xC0) * 0x40 + (c1 - 0x80)) :: cs)
        else none
      | [] => none
    else if b ≤ 0xEF then
      match rest with
      | c1 :: c2 :: rest2 =>
        if (if b = 0xE0 then 0xA0 else 0x80) ≤ c1 ∧ c1 ≤ (if b = 0xED then 0x9F else 0xBF) ∧
            0x80 ≤ c2 ∧ c2 ≤ 0xBF then
          (utf8Decode rest2).map (fun cs =>
            Char.ofNat ((b - 0xE0) * 0x1000 + (c1 - 0x80) * 0x40 + (c2 - 0x80)) :: cs)
        else none
      | _ => none
    else if b ≤ 0xF4 then
      match rest with
      | c1 :: c2 :: c3 :: rest2 =>
        if (if b = 0xF0 then 0x90 else 0x80) ≤ c1 ∧ c1 ≤ (if b = 0xF4 then 0x8F else 0xBF) ∧
            0x80 ≤ c2 ∧ c2 ≤ 0xBF ∧ 0x80 ≤ c3 ∧ c3 ≤ 0xBF then
          (utf8Decode rest2).map (fun cs =>
            Char.ofNat ((b - 0xF0) * 0x40000 + (c1 - 0x80) * 0x1000 +
              (c2 - 0x80) * 0x40 + (c3 - 0x80)) :: cs)
        else none
      | _ => none
    else none

/-- Python `bytes.decode('latin-1')`: total, each byte maps to the code point
of the same value. -/
def latin1Decode (bs : List Nat) : List Char :=
  bs.map Char.ofNat

/-- The five byte values on which the cp1252 codec is undefined. -/
def cp1252Undefined (b : Nat) : Bool :=
  b = 0x81 || b = 0x8D || b = 0x8F || b = 0x90 || b = 0x9D

/-- The cp1252 mapping for the 0x80–0x9F block (elsewhere cp1252 agrees with
latin-1). -/
def cp1252Table (b : Nat) : Nat :=
  if b = 0x80 then 0x20AC else if b = 0x82 then 0x201A else if b = 0x83 then 0x0192
  else if b = 0x84 then 0x201E else if b = 0x85 then 0x2026 else if b = 0x86 then 0x2020
  else if b = 0x87 then 0x2021 else if b = 0x88 then 0x02C6 else if b = 0x89 then 0x2030
  else if b = 0x8A then 0x0160 else if b = 0x8B then 0x2039 else if b = 0x8C then 0x0152
  else if b = 0x8E then 0x017D else if b = 0x91 then 0x2018 else if b = 0x92 then 0x2019
  else if b = 0x93 then 0x201C else if b = 0x94 then 0x201D else if b = 0x95 then 0x2022
  else if b = 0x96 then 0x2013 else if b = 0x97 then 0x2014 else if b = 0x98 then 0x02DC
  else if b = 0x99 then 0x2122 else if b = 0x9A then 0x0161 else if b = 0x9B then 0x203A
  else if b = 0x9C then 0x0153 else if b = 0x9E then 0x017E else if b = 0x9F then 0x0178
  else b

/-- Python `bytes.decode('cp1252')`: fails exactly on the five undefined bytes. -/
def cp1252Decode (bs : List Nat) : Option (List Char) :=
  if bs.any cp1252Undefined then none
  else some (bs.map (fun b => Char.ofNat (cp1252Table b)))

/-- Universal-newline translation performed by Python text-mode `open`. -/
def nlTranslate : Str → Str
  | [] => []
  | [c] => if c = '\r' then ['\n'] else [c]
  | c :: c2 :: rest =>
    if c = '\r' then
      if c2 = '\n' then '\n' :: nlTranslate rest else '\n' :: nlTranslate (c2 :: rest)
    else c :: nlTranslate (c2 :: rest)

/-- Helper for `pysplit`: walks the characters keeping the current word
(reversed) in `acc`, emitting it whenever a whitespace run or the end of the
string is reached. -/
def pySplitAux : List Char → List Char → List Str
  | [], acc => if acc.isEmpty then [] else [acc.reverse]
  | c :: rest, acc =>
    if c.isWhitespace then
      if acc.isEmpty then pySplitAux rest [] else acc.reverse :: pySplitAux rest []
    else pySplitAux rest (c :: acc)

/-- Python `str.split()` with no arguments: split on runs of whitespace,
dropping empty words. -/
def pysplit (s : Str) : List Str :=
  pySplitAux s []

/-- Python `' '.join(ws)`. -/
def joinSp : List Str → Str
  | [] => []
  | [w] => w
  | w :: ws => w ++ (' ' :: joinSp ws)

/-- Python `range(0, n, s)` for positive step `s`: the ascending multiples of
`s` below `n`. -/
def pyRange (n s : Nat) : List Nat :=
  (List.range n).filter (fun i => i % s == 0)

/-- `chunk_text` from `rag_pipeline.py`:

    def chunk_text(text, chunk_size=500, overlap=50):
        words = text.split()
        chunks = []
        for i in range(0, len(words), chunk_size - overlap):
            chunk = ' '.join(words[i:i+chunk_size])
            if chunk:
                chunks.append(chunk)
        return chunks

The step `chunk_size - overlap` is an int subtraction: when it is zero the
`range` call raises `ValueError`; when it is negative the range is empty and
the function silently returns no chunks. -/
def chunk_text (text : Str) (chunk_size : Nat := 500) (overlap : Nat := 50) :
    Except PyErr (List Str) :=
  let words := pysplit text
  if overlap < chunk_size then
    .ok (((pyRange words.length (chunk_size - overlap)).map
      (fun i => joinSp ((words.drop i).take chunk_size))).filter (fun c => !c.isEmpty))
  else if chunk_size = overlap then
    .error .valueError
  else
    .ok []

/-- `extract_text_from_txt` from `rag_pipeline.py`: reads the file in text
mode with `encoding='utf-8'` only; invalid UTF-8 raises `UnicodeDecodeError`.
The filesystem lookup happens at the call site (`readBytes`). -/
def extract_text_from_txt (bs : List Nat) : Except PyErr Str :=
  match utf8Decode bs with
  | some cs => .ok (nlTranslate cs)
  | none => .error .unicodeDecodeError

/-- The encodings tried by `FileProcessor._read_text_file`. -/
inductive Enc where
  | utf8
  | latin1
  | cp1252
deriving DecidableEq

/-- Decoding one candidate encoding, `none` = `UnicodeDecodeError`. -/
def pyDecode : Enc → List Nat → Option Str
  | .utf8, bs => utf8Decode bs
  | .latin1, bs => some (latin1Decode bs)
  | .cp1252, bs => cp1252Decode bs

/-- The `for encoding in encodings: try ... except UnicodeDecodeError:
continue` loop of `FileProcessor._read_text_file`. -/
def readTextFileAux : List Enc → List Nat → Option Str
  | [], _ => none
  | e :: es, bs =>
    match pyDecode e bs with
    | some cs => some ("File content:\n\n".data ++ nlTranslate cs)
    | none => readTextFileAux es bs

/-- `FileProcessor._read_text_file` from `file_processor.py`: tries
`['utf-8', 'latin-1', 'cp1252']` in order, first success wins; if every
encoding failed it returns the fixed "could not decode" message instead of
raising. -/
def readTextFile (bs : List Nat) : Str :=
  (readTextFileAux [.utf8, .latin1, .cp1252] bs).getD
    "Could not decode file content. Binary file or unsupported encoding.".data

/-- `os.path.basename`: the part of the path after the last `'/'`. -/
def basename (p : Str) : Str :=
  p.foldl (fun acc c => if c = '/' then [] else acc ++ [c]) []

/-- The extension part of `os.path.splitext(p)`: the suffix of the basename
from its last dot, provided some non-dot character precedes that dot (so a
leading-dot name such as `.bashrc` has no extension); empty otherwise. -/
def extAfterLastDot : Str → Option Str
  | [] => none
  | c :: rest =>
    match extAfterLastDot rest with
    | some e => some e
    | none => if c = '.' then some (c :: rest) else none

/-- `os.path.splitext(p)[1]`. -/
def splitextExt (p : Str) : Str :=
  let b := basename p
  match extAfterLastDot (b.dropWhile (fun c => c = '.')) with
  | some e => e
  | none => []

/-- `str.lower()` (ASCII case is all that extensions use). -/
def toLowerS (s : Str) : Str :=
  s.map Char.toLower

/-- `s.startswith(pre)` on Python strings. -/
def pyStartswith : Str → Str → Bool
  | _, [] => true
  | [], _ :: _ => false
  | c :: s, p :: ps => c = p && pyStartswith s ps

/-- Python `enumerate` starting at `i`. -/
def pyEnumFrom : Nat → List Str → List (Nat × Str)
  | _, [] => []
  | i, c :: rest => (i, c) :: pyEnumFrom (i + 1) rest

/-- Python `enumerate(chunks)`. -/
def pyEnumerate (l : List Str) : List (Nat × Str) :=
  pyEnumFrom 0 l

/-- The chunk id scheme `f"{file_id}_chunk_{idx}"`. -/
def chunkId (fid : Str) (idx : Nat) : Str :=
  fid ++ "_chunk_".data ++ (Nat.repr idx).data

/-- One record of the chroma collection `knowledge`: id, document text,
embedding vector, and the metadata dict supplied at insertion (`add_to_chroma`
never supplies one, so it is `none` for every record this pipeline writes). -/
structure ChromaRec where
  id : Str
  document : Str
  embedding : List Int
  metadata : Option (List (Str × Str))
deriving DecidableEq, Repr

/-- The neo4j property graph: `File {id}` nodes, `Chunk {id, text}` nodes and
`CONTAINS` edges from a file node to a chunk node. -/
structure Graph where
  files : List Str
  chunks : List (Str × Str)
  contains : List (Str × (Str × Str))
deriving DecidableEq, Repr

/-- The two persistent stores. -/
structure Stores where
  chroma : List ChromaRec
  graph : Graph
deriving DecidableEq, Repr

/-- The ids held by the chroma collection. -/
def chromaIds (st : Stores) : List Str :=
  st.chroma.map (fun r => r.id)

/-- `collection.add(documents=[doc], embeddings=[v], ids=[id])`: chroma
inserts the record only if the id is not already present (a duplicate id is
skipped with a warning; `add` never overwrites). No metadata is supplied. -/
def collectionAdd (recs : List ChromaRec) (id doc : Str) (v : List Int) : List ChromaRec :=
  if recs.any (fun r => r.id = id) then recs
  else recs ++ [⟨id, doc, v, none⟩]

/-- `collection.delete(ids=ids)`. -/
def collectionDelete (recs : List ChromaRec) (ids : List Str) : List ChromaRec :=
  recs.filter (fun r => !ids.contains r.id)

/-- `add_to_chroma` from `rag_pipeline.py`. -/
def add_to_chroma (st : Stores) (doc_id chunk : Str) (embedding : List Int) : Stores :=
  { st with chroma := collectionAdd st.chroma doc_id chunk embedding }

/-- Cypher `MERGE (f:File {id: $file_id})`. -/
def mergeFile (g : Graph) (fid : Str) : Graph :=
  if fid ∈ g.files then g else { g with files := g.files ++ [fid] }

/-- Cypher `MERGE (c:Chunk {id: $chunk_id, text: $text})`: match-or-create on
both properties, so a node is reused only when id and text both match. -/
def mergeChunk (g : Graph) (cid text : Str) : Graph :=
  if (cid, text) ∈ g.chunks then g else { g with chunks := g.chunks ++ [(cid, text)] }

/-- Merge a single `CONTAINS` edge. -/
def addEdge (g : Graph) (fid : Str) (node : Str × Str) : Graph :=
  if (fid, node) ∈ g.contains then g else { g with contains := g.contains ++ [(fid, node)] }

/-- Cypher `MATCH (f:File {id}), (c:Chunk {id}) MERGE (f)-[:CONTAINS]->(c)`:
one merged edge per matched chunk node (the `MATCH` binds every chunk node
carrying that id); no row — hence no edge — when the file node is absent. -/
def mergeContains (g : Graph) (fid cid : Str) : Graph :=
  if fid ∈ g.files then
    (g.chunks.filter (fun c => c.1 = cid)).foldl (fun h node => addEdge h fid node) g
  else g

/-- `add_to_neo4j` from `rag_pipeline.py`: the three session.run MERGE calls. -/
def add_to_neo4j (st : Stores) (file_id chunk_id chunk : Str) : Stores :=
  { st with graph := mergeContains (mergeChunk (mergeFile st.graph file_id) chunk_id chunk) file_id chunk_id }

/-- Cypher `MATCH (f:File {id: $file_id}) DETACH DELETE f`: removes the file
node and its incident edges; chunk nodes at the far end stay (possibly
orphaned). -/
def detachDeleteFile (g : Graph) (fid : Str) : Graph :=
  { g with files := g.files.filter (fun f => f ≠ fid),
           contains := g.contains.filter (fun e => e.1 ≠ fid) }

/-- The store writes performed for one chunk inside the ingestion loop of
`process_file`: `add_to_chroma(chunk_id, chunk, embedding)` then
`add_to_neo4j(file_id, chunk_id, chunk)`. -/
def writeChunk (fid : Str) (st : Stores) (p : Nat × Str) (v : List Int) : Stores :=
  add_to_neo4j (add_to_chroma st (chunkId fid p.1) p.2 v) fid (chunkId fid p.1) p.2

/-- What the processing loop of `process_file` records: the chunk texts sent
to the embedding service (in call order) and the console prints. -/
structure Trace where
  embeds : List Str
  prints : List Str
deriving DecidableEq, Repr

/-- Result of one handler invocation: the store state (reflecting every write
performed before any exception), the trace, and the propagated Python
exception if one was raised. -/
structure Outcome where
  state : Stores
  trace : Trace
  err : Option PyErr
deriving DecidableEq, Repr

/-- The `for idx, chunk in enumerate(chunks)` loop of `process_file`:
`embed_text` (the oracle `emb`) has no surrounding try/except, so its
exception aborts the loop, keeping the writes made so far. -/
def processChunks (emb : Str → Except PyErr (List Int)) (fid : Str) :
    List (Nat × Str) → Stores → Stores × List Str × Option PyErr
  | [], st => (st, [], none)
  | (idx, c) :: rest, st =>
    match emb c with
    | .error e => (st, [c], some e)
    | .ok v =>
      let r := processChunks emb fid rest (writeChunk fid st (idx, c) v)
      (r.1, c :: r.2.1, r.2.2)

/-- Result of the extension dispatch at the top of `process_file`. -/
inductive ExtractOutcome where
  | unsupported
  | failed (e : PyErr)
  | extracted (text : Str)
deriving DecidableEq

/-- `open(path, ...)`: look the path up in the filesystem map. -/
def readBytes (fs : Str → Option (List Nat)) (path : Str) : Except PyErr (List Nat) :=
  match fs path with
  | some bs => .ok bs
  | none => .error .fileNotFoundError

/-- Lift an extraction result into the dispatch outcome. -/
def toOutcomeE : Except PyErr Str → ExtractOutcome
  | .ok t => .extracted t
  | .error e => .failed e

/-- The raster image extensions accepted by `process_file`. -/
def imageExts : List Str :=
  [".jpg".data, ".jpeg".data, ".png".data, ".bmp".data, ".tiff".data]

/-- Every extension `process_file` accepts. -/
def supportedExts : List Str :=
  ".pdf".data :: imageExts ++ [".txt".data, ".md".data]

/-- The `if ext == '.pdf' ... elif ... else` chain of `process_file`. `pdfX`
and `ocrX` are oracles for `extract_text_from_pdf` (pypdf) and
`extract_text_from_image` (PIL + pytesseract). -/
def dispatchExtract (fs : Str → Option (List Nat))
    (pdfX ocrX : List Nat → Except PyErr Str) (path : Str) : ExtractOutcome :=
  let ext := toLowerS (splitextExt path)
  if ext = ".pdf".data then toOutcomeE ((readBytes fs path).bind pdfX)
  else if ext ∈ imageExts then toOutcomeE ((readBytes fs path).bind ocrX)
  else if ext = ".txt".data ∨ ext = ".md".data then
    toOutcomeE ((readBytes fs path).bind extract_text_from_txt)
  else ExtractOutcome.unsupported

/-- The skip message printed for an unsupported extension. -/
def unsupportedMsg (path : Str) : Str :=
  "Unsupported file type: ".data ++ path

/-- The completion message of `process_file`. -/
def processedMsg (path : Str) (n : Nat) : Str :=
  "Processed ".data ++ path ++ " with ".data ++ (Nat.repr n).data ++ " chunks.".data

/-- The completion message of `on_deleted`. -/
def deletedMsg (fid : Str) : Str :=
  "Deleted ".data ++ fid ++ " from vector and graph DB.".data

/-- `KnowledgeBaseHandler.process_file` from `rag_pipeline.py`. -/
def process_file (fs : Str → Option (List Nat))
    (pdfX ocrX : List Nat → Except PyErr Str)
    (emb : Str → Except PyErr (List Int)) (st : Stores) (path : Str) : Outcome :=
  let fid := basename path
  match dispatchExtract fs pdfX ocrX path with
  | .unsupported => ⟨st, ⟨[], [unsupportedMsg path]⟩, none⟩
  | .failed e => ⟨st, ⟨[], []⟩, some e⟩
  | .extracted text =>
    match chunk_text text with
    | .error e => ⟨st, ⟨[], []⟩, some e⟩
    | .ok chunks =>
      let r := processChunks emb fid (pyEnumerate chunks) st
      match r.2.2 with
      | some e => ⟨r.1, ⟨r.2.1, []⟩, some e⟩
      | none => ⟨r.1, ⟨r.2.1, [processedMsg path chunks.length]⟩, none⟩

/-- A watchdog filesystem event. -/
structure FsEvent where
  src_path : Str
  is_directory : Bool
deriving DecidableEq

/-- Python `doc['id']` where `doc` is one entry of
`collection.get()['metadatas']`: subscripting `None` raises `TypeError`;
a dict without the key raises `KeyError`. -/
def getMetaId (m : Option (List (Str × Str))) : Except PyErr Str :=
  match m with
  | none => .error .typeError
  | some kvs =>
    match kvs.lookup "id".data with
    | some v => .ok v
    | none => .error .keyError

/-- The list comprehension of `on_deleted`:
`[doc['id'] for doc in collection.get()['metadatas'] if doc['id'].startswith(file_id)]`.
The first `doc` that is `None` (i.e. any record stored without metadata)
raises before anything is deleted. -/
def idsToRemove (recs : List ChromaRec) (fid : Str) : Except PyErr (List Str) :=
  recs.foldlM (fun acc r => do
    let i ← getMetaId r.metadata
    pure (if pyStartswith i fid then acc ++ [i] else acc)) []

/-- `KnowledgeBaseHandler.on_deleted` from `rag_pipeline.py`. -/
def on_deleted (st : Stores) (ev : FsEvent) : Outcome :=
  if ev.is_directory then ⟨st, ⟨[], []⟩, none⟩
  else
    let fid := basename ev.src_path
    match idsToRemove st.chroma fid with
    | .error e => ⟨st, ⟨[], []⟩, some e⟩
    | .ok ids =>
      let st1 := if ids.isEmpty then st
        else { st with chroma := collectionDelete st.chroma ids }
      let st2 := { st1 with graph := detachDeleteFile st1.graph fid }
      ⟨st2, ⟨[], [deletedMsg fid]⟩, none⟩

/-- `KnowledgeBaseHandler.on_created`. -/
def on_created (fs : Str → Option (List Nat)) (pdfX ocrX : List Nat → Except PyErr Str)
    (emb : Str → Except PyErr (List Int)) (st : Stores) (ev : FsEvent) : Outcome :=
  if ev.is_directory then ⟨st, ⟨[], []⟩, none⟩
  else process_file fs pdfX ocrX emb st ev.src_path

/-- `KnowledgeBaseHandler.on_modified`. -/
def on_modified (fs : Str → Option (List Nat)) (pdfX ocrX : List Nat → Except PyErr Str)
    (emb : Str → Except PyErr (List Int)) (st : Stores) (ev : FsEvent) : Outcome :=
  if ev.is_directory then ⟨st, ⟨[], []⟩, none⟩
  else process_file fs pdfX ocrX emb st ev.src_path

/-- The chunk-count formula stated by the specification:
`ceil(max(W - overlap, 0) / (size - overlap))`. -/
def specChunkCount (W size overlap : Nat) : Nat :=
  (max (W - overlap) 0 + (size - overlap) - 1) / (size - overlap)

/-- The chunk count actually produced by `chunk_text` with default arguments. -/
def codeChunkCount (text : Str) : Nat :=
  match chunk_text text with
  | .ok cs => cs.length
  | .error _ => 0

/-- `w` occurs contiguously inside `c` (Python `w in c` for strings). -/
def occursIn (w c : Str) : Prop :=
  ∃ l r, c = l ++ w ++ r

/-- One iteration of the ingestion loop as a state transformer, used to
describe the partial state left behind when a later chunk's embedding
fails. -/
def writeOk (emb : Str → Except PyErr (List Int)) (fid : Str) (st : Stores)
    (p : Nat × Str) : Stores :=
  match emb p.2 with
  | .ok v => writeChunk fid st p v
  | .error _ => st

/-- All four store effects of ingesting one chunk are present in `st`:
the chroma record id, the File node, the Chunk node, and a CONTAINS edge to
every chunk node carrying that chunk id. -/
def chunkWritten (st : Stores) (fid cid text : Str) : Prop :=
  cid ∈ chromaIds st ∧ fid ∈ st.graph.files ∧ (cid, text) ∈ st.graph.chunks ∧
    ∀ node ∈ st.graph.chunks, node.1 = cid → (fid, node) ∈ st.graph.contains

/-- Both stores empty. -/
def emptyStores : Stores := ⟨[], ⟨[], [], []⟩⟩

/-- A filesystem holding one UTF-8 text file `doc1.txt` with two words. -/
def fsHello : Str → Option (List Nat) :=
  fun p => if p = "doc1.txt".data then some ("hello world".data.map Char.toNat) else none

/-- A filesystem holding one text file whose content is a single space. -/
def fsSpace : Str → Option (List Nat) :=
  fun p => if p = "empty.txt".data then some [32] else none

/-- An embedding oracle that always succeeds. -/
def embOne : Str → Except PyErr (List Int) := fun _ => .ok [1]

/-- An embedding oracle that always raises (e.g. an API failure). -/
def embFail : Str → Except PyErr (List Int) := fun _ => .error .apiError

/-- A trivial pdf/ocr extraction oracle (never consulted in the scenarios it
is passed to). -/
def pdfNone : List Nat → Except PyErr Str := fun _ => .ok []

/-- 451 one-letter words: long enough that `chunk_text` produces two chunks. -/
def w451 : List Str := List.replicate 451 ['w']

/-- The 451-word text. -/
def text451 : Str := joinSp w451

/-- The 451-word text as UTF-8 bytes. -/
def bytes451 : List Nat := text451.map Char.toNat

/-- A filesystem holding `doc1.txt` with the 451-word content. -/
def fs451 : Str → Option (List Nat) :=
  fun p => if p = "doc1.txt".data then some bytes451 else none

/-- Store state after file `doc1.txt` was ingested with one chunk: the
failing input exhibited for the delete handler. -/
def c1State : Stores :=
  ⟨[⟨"doc1.txt_chunk_0".data, "hello world".data, [1], none⟩],
   ⟨["doc1.txt".data], [("doc1.txt_chunk_0".data, "hello world".data)],
    [("doc1.txt".data, ("doc1.txt_chunk_0".data, "hello world".data))]⟩⟩

/-- Store state holding chunks of `doc1.txt` and of the distinct file
`doc1.txt.bak`, whose id extends the former's character prefix. -/
def c4State : Stores :=
  ⟨[⟨"doc1.txt_chunk_0".data, "hello world".data, [1], none⟩,
    ⟨"doc1.txt.bak_chunk_0".data, "backup text".data, [2], none⟩],
   ⟨["doc1.txt".data, "doc1.txt.bak".data],
    [("doc1.txt_chunk_0".data, "hello world".data),
     ("doc1.txt.bak_chunk_0".data, "backup text".data)],
    [("doc1.txt".data, ("doc1.txt_chunk_0".data, "hello world".data)),
     ("doc1.txt.bak".data, ("doc1.txt.bak_chunk_0".data, "backup text".data))]⟩⟩

theorem pySplitAux_ne_nil : ∀ (l : List Char) (acc : List Char) (w : Str),
    w ∈ pySplitAux l acc → w ≠ [] := by
  intro l
  induction l with
  | nil =>
    intro acc w hw
    unfold pySplitAux at hw
    split at hw
    · simp at hw
    · next h =>
      simp only [List.mem_singleton] at hw
      subst hw
      cases acc with
      | nil => simp at h
      | cons a t => simp
  | cons c rest ih =>
    intro acc w hw
    unfold pySplitAux at hw
    split at hw
    · split at hw
      · exact ih [] w hw
      · next h =>
        rcases List.mem_cons.mp hw with hEq | hmem
        · subst hEq
          cases acc with
          | nil => simp at h
          | cons a t => simp
        · exact ih [] w hmem
    · exact ih (c :: acc) w hw

theorem pysplit_ne_nil {s : Str} {w : Str} (h : w ∈ pysplit s) : w ≠ [] :=
  pySplitAux_ne_nil s [] w h

theorem joinSp_ne_nil {ws : List Str} (hne : ws ≠ []) (hw : ∀ w ∈ ws, w ≠ []) :
    joinSp ws ≠ [] := by
  match ws with
  | [] => exact absurd rfl hne
  | [w] =>
    have h1 := hw w (by simp)
    simpa [joinSp] using h1
  | w :: x :: ws2 =>
    have h1 : w ≠ [] := hw w (by simp)
    cases w with
    | nil => exact absurd rfl h1
    | cons a as => simp [joinSp]

theorem occursIn_joinSp {w : Str} : ∀ {ws : List Str}, w ∈ ws → occursIn w (joinSp ws) := by
  intro ws
  induction ws with
  | nil => intro h; simp at h
  | cons a t ih =>
    intro h
    cases t with
    | nil =>
      simp at h
      subst h
      exact ⟨[], [], by simp [joinSp]⟩
    | cons b t2 =>
      rcases List.mem_cons.mp h with hEq | hmem
      · subst hEq
        exact ⟨[], ' ' :: joinSp (b :: t2), by simp [joinSp]⟩
      · obtain ⟨l, r, hlr⟩ := ih hmem
        exact ⟨a ++ ' ' :: l, r, by simp [joinSp, hlr]⟩

theorem pyRange_mem {n s i : Nat} : i ∈ pyRange n s ↔ i < n ∧ i % s = 0 := by
  simp [pyRange, List.mem_filter, List.mem_range]

theorem pyRange_length_450 (n : Nat) : (pyRange n 450).length = (n + 449) / 450 := by
  induction n with
  | zero => rfl
  | succ n ih =>
    have h : pyRange (n + 1) 450 = pyRange n 450 ++ (if n % 450 == 0 then [n] else []) := by
      simp only [pyRange, List.range_succ, List.filter_append]
      congr 1
      by_cases hm : n % 450 = 0 <;> simp [List.filter_singleton, hm]
    rw [h, List.length_append, ih]
    by_cases hm : n % 450 = 0 <;> simp [hm] <;> omega

theorem window_ne_nil {words : List Str} {i size : Nat} (hi : i < words.length)
    (hs : 0 < size) : (words.drop i).take size ≠ [] := by
  have hd : words.drop i ≠ [] := by
    intro h
    rw [List.drop_eq_nil_iff] at h
    omega
  cases hdrop : words.drop i with
  | nil => exact absurd hdrop hd
  | cons a t =>
    cases size with
    | zero => omega
    | succ m => simp [hdrop, List.take]

theorem window_subset {words : List Str} {i size : Nat} {w : Str}
    (h : w ∈ (words.drop i).take size) : w ∈ words :=
  ((List.take_sublist _ _).trans (List.drop_sublist _ _)).mem h

theorem chunk_text_default (text : Str) :
    chunk_text text = .ok ((pyRange (pysplit text).length 450).map
      (fun i => joinSp (((pysplit text).drop i).take 500))) := by
  show chunk_text text 500 50 = _
  unfold chunk_text
  rw [if_pos (by norm_num)]
  congr 1
  rw [List.filter_eq_self.mpr]
  intro c hc
  rw [List.mem_map] at hc
  obtain ⟨i, hi, rfl⟩ := hc
  rw [pyRange_mem] at hi
  have hwin : ((pysplit text).drop i).take 500 ≠ [] := window_ne_nil hi.1 (by norm_num)
  have hjoin : joinSp (((pysplit text).drop i).take 500) ≠ [] :=
    joinSp_ne_nil hwin (fun w hw => pysplit_ne_nil (window_subset hw))
  simpa using hjoin

theorem pyEnumFrom_map_fst : ∀ (l : List Str) (i : Nat),
    (pyEnumFrom i l).map Prod.fst = (List.range l.length).map (fun k => k + i) := by
  intro l
  induction l with
  | nil => intro i; rfl
  | cons a t ih =>
    intro i
    simp only [pyEnumFrom, List.map_cons, List.length_cons, List.range_succ_eq_map,
      List.map_map]
    rw [ih (i + 1)]
    congr 1
    · omega
    · apply List.map_congr_left
      intro k hk
      simp [Function.comp]
      omega

theorem pyEnumerate_map_fst (l : List Str) :
    (pyEnumerate l).map Prod.fst = List.range l.length := by
  rw [pyEnumerate, pyEnumFrom_map_fst]
  simp
  

/-- Claim C2, counterexample: for the one-word text `"w"` the code produces 1
chunk while the specified formula `ceil(max(W - overlap, 0) / (size - overlap))`
gives 0 (the same mismatch occurs at W = 500: code 2, formula 1). -/
theorem c2_counterexample :
    (pysplit "w".data).length = 1 ∧ codeChunkCount "w".data = 1 ∧
      specChunkCount 1 500 50 = 0 ∧
      codeChunkCount "w".data ≠ specChunkCount (pysplit "w".data).length 500 50 := by
  decide

/-- Claim C2, amended: for every text, `chunk_text` with the default
`size = 500`, `overlap = 50` succeeds and produces exactly
`ceil(W / (size - overlap)) = (W + 449) / 450` chunks, where `W` is the
whitespace word count — in particular 0, 1, 2, 2, 3 chunks for
W = 0, 1, 500, 501, 1000 (not the specified
`ceil(max(W - overlap, 0) / (size - overlap))`, which gives 0 at W = 1 and
1 at W = 500). -/
theorem c2_chunk_count (text : Str) :
    ∃ cs, chunk_text text = .ok cs ∧
      cs.length = ((pysplit text).length + 449) / 450 := by
  refine ⟨_, chunk_text_default text, ?_⟩
  rw [List.length_map, pyRange_length_450]

/-- Claim C7, counterexample: a configuration with `overlap > size` is not
rejected anywhere — `chunk_text` runs and silently returns no chunks
(`range(0, n, negative)` is empty), and there is no construction-time check
because the chunker is a plain function. -/
theorem c7_counterexample : chunk_text "a b".data 5 7 = .ok [] := by
  rfl

/-- Claim C7, amended: there is no construction-time validation of the
chunker configuration. A call with `overlap = size` raises `ValueError` only
when `chunk_text` itself runs (Python `range` rejects a zero step), and a
call with `overlap > size` silently returns the empty chunk list. -/
theorem c7_no_validation (text : Str) (chunk_size overlap : Nat) :
    (overlap = chunk_size → chunk_text text chunk_size overlap = .error .valueError) ∧
    (chunk_size < overlap → chunk_text text chunk_size overlap = .ok []) := by
  constructor
  · intro h
    subst h
    show (if overlap < overlap then _ else if overlap = overlap then _ else _) = _
    rw [if_neg (lt_irrefl overlap), if_pos rfl]
  · intro h
    show (if overlap < chunk_size then _ else if chunk_size = overlap then _ else _) = _
    rw [if_neg (by omega), if_neg (by omega)]

theorem c7_witness :
    chunk_text "a b".data 5 5 = .error .valueError ∧ chunk_text "a b".data 5 7 = .ok [] :=
  ⟨(c7_no_validation "a b".data 5 5).1 rfl, (c7_no_validation "a b".data 5 7).2 (by norm_num)⟩

/-- Claim C10: for every text and every configuration with
`overlap < size`, every word of the whitespace tokenization occurs in at
least one produced chunk (no word is dropped between windows), and the
ordinals assigned by `enumerate(chunks)` are exactly `0, 1, ..., n-1`. -/
theorem c10_word_coverage (text : Str) (size overlap : Nat) (h : overlap < size) :
    ∃ cs, chunk_text text size overlap = .ok cs ∧
      (∀ w ∈ pysplit text, ∃ c ∈ cs, occursIn w c) ∧
      (pyEnumerate cs).map Prod.fst = List.range cs.length := by
  have heq : chunk_text text size overlap =
      .ok (((pyRange (pysplit text).length (size - overlap)).map
        (fun i => joinSp (((pysplit text).drop i).take size))).filter
          (fun c => !c.isEmpty)) := by
    show (if overlap < size then _ else _) = _
    rw [if_pos h]
  refine ⟨_, heq, ?_, pyEnumerate_map_fst _⟩
  intro w hw
  set words := pysplit text with hwords
  set s := size - overlap with hs
  have hs0 : 0 < s := by omega
  obtain ⟨j, hj, hwj⟩ := List.mem_iff_getElem.mp hw
  set i := j / s * s with hi
  have hmod : j % s + s * (j / s) = j := Nat.mod_add_div j s
  have hcomm : s * (j / s) = j / s * s := Nat.mul_comm _ _
  have hile : i ≤ j := Nat.div_mul_le_self j s
  have hjlt : j - i < s := by
    have := Nat.mod_lt j hs0
    omega
  have hin : i < words.length := by omega
  have hwinlen : j - i < ((words.drop i).take size).length := by
    rw [List.length_take, List.length_drop]
    omega
  have hmem : w ∈ (words.drop i).take size := by
    refine List.mem_iff_getElem.mpr ⟨j - i, hwinlen, ?_⟩
    rw [List.getElem_take, List.getElem_drop]
    have hij : i + (j - i) = j := by omega
    simp only [hij]
    exact hwj
  refine ⟨joinSp ((words.drop i).take size), ?_, occursIn_joinSp hmem⟩
  rw [List.mem_filter]
  constructor
  · exact List.mem_map.mpr ⟨i, pyRange_mem.mpr ⟨hin, by simp [hi, Nat.mul_mod_left]⟩, rfl⟩
  · have : joinSp ((words.drop i).take size) ≠ [] :=
      joinSp_ne_nil (window_ne_nil hin (by omega))
        (fun v hv => pysplit_ne_nil (window_subset hv))
    simpa using this

theorem c10_witness :
    50 < 500 ∧
      (∃ cs, chunk_text "a b".data 500 50 = .ok cs ∧
        (∀ w ∈ pysplit "a b".data, ∃ c ∈ cs, occursIn w c) ∧
        (pyEnumerate cs).map Prod.fst = List.range cs.length) :=
  ⟨by norm_num, c10_word_coverage "a b".data 500 50 (by norm_num)⟩

/-- Claim C5, counterexample: the single byte 0xE9 is `'é'` in latin-1 (a
legacy single-byte encoding) but invalid UTF-8; the ingestion pipeline's
text-variant extraction `extract_text_from_txt` tries only UTF-8 and raises
`UnicodeDecodeError` instead of extracting the file. -/
theorem c5_counterexample :
    extract_text_from_txt [0xE9] = .error .unicodeDecodeError := by
  rfl

/-- Claim C5, amended: the encoding-fallback chain lives only in the upload
path: `FileProcessor._read_text_file` tries utf-8, then latin-1, then cp1252
and returns the first successful decode — since latin-1 accepts every byte,
the result is always the utf-8 decode when the bytes are valid UTF-8 and the
latin-1 decode otherwise (the "could not decode" outcome and the cp1252
attempt are unreachable). The ingestion pipeline's `extract_text_from_txt`
tries only UTF-8 and raises `UnicodeDecodeError` on legacy-encoded files. -/
theorem c5_fallback_chain (bs : List Nat) :
    readTextFile bs =
      "File content:\n\n".data ++ nlTranslate ((utf8Decode bs).getD (latin1Decode bs)) := by
  cases h : utf8Decode bs with
  | some cs => simp [readTextFile, readTextFileAux, pyDecode, h]
  | none => simp [readTextFile, readTextFileAux, pyDecode, h]

theorem dispatch_unsupported (fs : Str → Option (List Nat))
    (pdfX ocrX : List Nat → Except PyErr Str) (path : Str)
    (h : toLowerS (splitextExt path) ∉ supportedExts) :
    dispatchExtract fs pdfX ocrX path = .unsupported := by
  have h1 : toLowerS (splitextExt path) ≠ ".pdf".data := by
    intro hEq
    exact h (by rw [hEq]; simp [supportedExts])
  have h2 : toLowerS (splitextExt path) ∉ imageExts := by
    intro hm
    exact h (by simp [supportedExts]; tauto)
  have h3 : ¬(toLowerS (splitextExt path) = ".txt".data ∨
      toLowerS (splitextExt path) = ".md".data) := by
    intro hm
    apply h
    rcases hm with hx | hx <;> rw [hx] <;> simp [supportedExts]
  unfold dispatchExtract
  rw [if_neg h1, if_neg h2, if_neg h3]

/-- Claim C8: processing a file whose lower-cased extension is not among the
supported formats (pdf, the raster image formats, txt, md) creates no chunks,
performs no vector-store or graph-store write, makes no embedding call,
prints the skip message, and raises no exception. -/
theorem c8_unsupported_skip (fs : Str → Option (List Nat))
    (pdfX ocrX : List Nat → Except PyErr Str) (emb : Str → Except PyErr (List Int))
    (st : Stores) (path : Str)
    (h : toLowerS (splitextExt path) ∉ supportedExts) :
    process_file fs pdfX ocrX emb st path = ⟨st, ⟨[], [unsupportedMsg path]⟩, none⟩ := by
  unfold process_file
  rw [dispatch_unsupported fs pdfX ocrX path h]

theorem c8_witness :
    toLowerS (splitextExt "doc1.exe".data) ∉ supportedExts ∧
      process_file fsHello pdfNone pdfNone embOne emptyStores "doc1.exe".data =
        ⟨emptyStores, ⟨[], [unsupportedMsg "doc1.exe".data]⟩, none⟩ :=
  ⟨by decide,
    c8_unsupported_skip fsHello pdfNone pdfNone embOne emptyStores "doc1.exe".data (by decide)⟩

/-- Claim C9: a text whose whitespace tokenization is empty (empty or
whitespace-only file) chunks to the empty list, so processing such a
`.txt`/`.md` file makes zero embedding calls, performs zero store writes and
completes normally (reporting 0 chunks). -/
theorem c9_empty_tokenization (fs : Str → Option (List Nat))
    (pdfX ocrX : List Nat → Except PyErr Str) (emb : Str → Except PyErr (List Int))
    (st : Stores) (path : Str) (bs : List Nat) (cs : Str)
    (hext : toLowerS (splitextExt path) = ".txt".data ∨
      toLowerS (splitextExt path) = ".md".data)
    (hfs : fs path = some bs)
    (hdec : utf8Decode bs = some cs)
    (hempty : pysplit (nlTranslate cs) = []) :
    chunk_text (nlTranslate cs) = .ok [] ∧
      process_file fs pdfX ocrX emb st path = ⟨st, ⟨[], [processedMsg path 0]⟩, none⟩ := by
  have hchunk : chunk_text (nlTranslate cs) = .ok [] := by
    rw [chunk_text_default, hempty]
    rfl
  refine ⟨hchunk, ?_⟩
  have hdisp : dispatchExtract fs pdfX ocrX path = .extracted (nlTranslate cs) := by
    unfold dispatchExtract
    rcases hext with hx | hx <;>
      rw [hx, if_neg (by decide), if_neg (by decide), if_pos (by decide)] <;>
      simp [readBytes, hfs, Except.bind, extract_text_from_txt, hdec, toOutcomeE]
  unfold process_file
  simp only [hdisp, hchunk]
  rfl

theorem c9_witness :
    (toLowerS (splitextExt "empty.txt".data) = ".txt".data ∨
      toLowerS (splitextExt "empty.txt".data) = ".md".data) ∧
      (chunk_text (nlTranslate [' ']) = .ok [] ∧
        process_file fsSpace pdfNone pdfNone embOne emptyStores "empty.txt".data =
          ⟨emptyStores, ⟨[], [processedMsg "empty.txt".data 0]⟩, none⟩) :=
  ⟨by decide,
    c9_empty_tokenization fsSpace pdfNone pdfNone embOne emptyStores "empty.txt".data
      [32] [' '] (by decide) (by decide) (by decide) (by decide)⟩

theorem pyEnumFrom_length (l : List Str) : ∀ i, (pyEnumFrom i l).length = l.length := by
  induction l with
  | nil => intro i; rfl
  | cons a t ih => intro i; simp [pyEnumFrom, ih]

theorem pyEnumFrom_getD_snd (l : List Str) :
    ∀ i j, ((pyEnumFrom i l).getD j (0, [])).2 = l.getD j [] := by
  induction l with
  | nil => intro i j; cases j <;> rfl
  | cons a t ih =>
    intro i j
    cases j with
    | zero => rfl
    | succ j2 => simpa [pyEnumFrom] using ih (i + 1) j2

theorem pyEnumFrom_take_map_snd (l : List Str) :
    ∀ i k, ((pyEnumFrom i l).take k).map Prod.snd = l.take k := by
  induction l with
  | nil => intro i k; cases k <;> rfl
  | cons a t ih =>
    intro i k
    cases k with
    | zero => rfl
    | succ k2 => simp [pyEnumFrom, List.take_succ_cons, ih (i + 1) k2]

theorem processChunks_abort (emb : Str → Except PyErr (List Int)) (fid : Str) :
    ∀ (ps : List (Nat × Str)) (st : Stores) (k : Nat) (e : PyErr),
      k < ps.length →
      (∀ i, i < k → (emb (ps.getD i (0, [])).2).isOk = true) →
      emb (ps.getD k (0, [])).2 = .error e →
      processChunks emb fid ps st =
        ((ps.take k).foldl (writeOk emb fid) st, (ps.take (k + 1)).map Prod.snd, some e) := by
  intro ps
  induction ps with
  | nil =>
    intro st k e hk
    simp at hk
  | cons p rest ih =>
    intro st k e hk hpre hfail
    obtain ⟨idx, c⟩ := p
    cases k with
    | zero =>
      simp only [List.getD_cons_zero] at hfail
      simp [processChunks, hfail, List.take_succ_cons]
    | succ k2 =>
      have h0 := hpre 0 (by omega)
      simp only [List.getD_cons_zero] at h0
      obtain ⟨v, hv⟩ : ∃ v, emb c = .ok v := by
        cases hemb : emb c with
        | ok v => exact ⟨v, rfl⟩
        | error e2 => rw [hemb] at h0; simp [Except.isOk, Except.toBool] at h0
      simp only [processChunks, hv]
      rw [ih (writeChunk fid st (idx, c) v) k2 e (by simpa using hk)
        (fun i hi => by simpa using hpre (i + 1) (by omega))
        (by simpa using hfail)]
      simp [List.take_succ_cons, writeOk, hv]

/-- Claim C3, amended: a chunk-level embedding failure is NOT skipped — there
is no try/except around `embed_text`, so when embedding chunk `k` raises, the
exception aborts `process_file`: the chunks before `k` remain written, the
embedding service was called exactly `k + 1` times (the failed call last),
and neither chunk `k` nor any later chunk is embedded or written to either
store. -/
theorem c3_embed_failure_aborts (fs : Str → Option (List Nat))
    (pdfX ocrX : List Nat → Except PyErr Str) (emb : Str → Except PyErr (List Int))
    (st : Stores) (path : Str) (text : Str) (chunks : List Str) (k : Nat) (e : PyErr)
    (hx : dispatchExtract fs pdfX ocrX path = .extracted text)
    (hc : chunk_text text = .ok chunks)
    (hk : k < chunks.length)
    (hpre : ∀ i, i < k → (emb (chunks.getD i [])).isOk = true)
    (hfail : emb (chunks.getD k []) = .error e) :
    process_file fs pdfX ocrX emb st path =
      ⟨((pyEnumerate chunks).take k).foldl (writeOk emb (basename path)) st,
       ⟨chunks.take (k + 1), []⟩, some e⟩ := by
  unfold process_file
  simp only [hx, hc]
  rw [processChunks_abort emb (basename path) (pyEnumerate chunks) st k e
    (by rw [pyEnumerate, pyEnumFrom_length]; exact hk)
    (fun i hi => by rw [pyEnumerate, pyEnumFrom_getD_snd]; exact hpre i hi)
    (by rw [pyEnumerate, pyEnumFrom_getD_snd]; exact hfail)]
  rw [pyEnumerate, pyEnumFrom_take_map_snd]

theorem c3_witness :
    0 < 1 ∧
      process_file fsHello pdfNone pdfNone embFail emptyStores "doc1.txt".data =
        ⟨((pyEnumerate ["hello world".data]).take 0).foldl
            (writeOk embFail (basename "doc1.txt".data)) emptyStores,
         ⟨["hello world".data].take 1, []⟩, some .apiError⟩ :=
  ⟨by decide,
    c3_embed_failure_aborts fsHello pdfNone pdfNone embFail emptyStores "doc1.txt".data
      "hello world".data ["hello world".data] 0 .apiError (by decide) (by rfl) (by decide)
      (fun i hi => absurd hi (by omega)) (by rfl)⟩

set_option maxRecDepth 100000 in
/-- Claim C3, counterexample: `doc1.txt` holds 451 one-letter words, which
chunk into two chunks; the embedder raises on every call. Processing stops at
the first chunk: exactly one embedding call happens, the exception
propagates, and no store write occurs at all — in particular the second
chunk is never embedded and `doc1.txt_chunk_1` is never written, contradicting
"the remaining chunks still execute". -/
theorem c3_counterexample :
    chunk_text text451 = .ok [text451, ['w']] ∧
      process_file fs451 pdfNone pdfNone embFail emptyStores "doc1.txt".data =
        ⟨emptyStores, ⟨[text451], []⟩, some .apiError⟩ := by
  constructor
  · rfl
  · rfl

theorem addEdge_files (g : Graph) (fid : Str) (node : Str × Str) :
    (addEdge g fid node).files = g.files := by
  unfold addEdge
  split <;> rfl

theorem addEdge_chunks (g : Graph) (fid : Str) (node : Str × Str) :
    (addEdge g fid node).chunks = g.chunks := by
  unfold addEdge
  split <;> rfl

theorem addEdge_contains_mono {g : Graph} {fid : Str} {node : Str × Str}
    {x : Str × (Str × Str)} (h : x ∈ g.contains) : x ∈ (addEdge g fid node).contains := by
  unfold addEdge
  split
  · exact h
  · simp [h]

theorem addEdge_contains_self (g : Graph) (fid : Str) (node : Str × Str) :
    (fid, node) ∈ (addEdge g fid node).contains := by
  unfold addEdge
  split
  · assumption
  · simp

theorem addEdge_noop {g : Graph} {fid : Str} {node : Str × Str}
    (h : (fid, node) ∈ g.contains) : addEdge g fid node = g := by
  unfold addEdge
  rw [if_pos h]

theorem foldAdd_files (fid : Str) :
    ∀ (ts : List (Str × Str)) (g : Graph),
      (ts.foldl (fun h node => addEdge h fid node) g).files = g.files := by
  intro ts
  induction ts with
  | nil => intro g; rfl
  | cons t ts2 ih => intro g; rw [List.foldl_cons, ih, addEdge_files]

theorem foldAdd_chunks (fid : Str) :
    ∀ (ts : List (Str × Str)) (g : Graph),
      (ts.foldl (fun h node => addEdge h fid node) g).chunks = g.chunks := by
  intro ts
  induction ts with
  | nil => intro g; rfl
  | cons t ts2 ih => intro g; rw [List.foldl_cons, ih, addEdge_chunks]

theorem foldAdd_contains_mono (fid : Str) :
    ∀ (ts : List (Str × Str)) (g : Graph) (x : Str × (Str × Str)), x ∈ g.contains →
      x ∈ (ts.foldl (fun h node => addEdge h fid node) g).contains := by
  intro ts
  induction ts with
  | nil => intro g x h; exact h
  | cons t ts2 ih =>
    intro g x h
    rw [List.foldl_cons]
    exact ih _ x (addEdge_contains_mono h)

theorem foldAdd_covers (fid : Str) :
    ∀ (ts : List (Str × Str)) (g : Graph) (t : Str × Str), t ∈ ts →
      (fid, t) ∈ (ts.foldl (fun h node => addEdge h fid node) g).contains := by
  intro ts
  induction ts with
  | nil => intro g t h; simp at h
  | cons t0 ts2 ih =>
    intro g t h
    rw [List.foldl_cons]
    rcases List.mem_cons.mp h with hEq | hmem
    · subst hEq
      exact foldAdd_contains_mono fid ts2 _ _ (addEdge_contains_self g fid t)
    · exact ih _ t hmem

theorem foldAdd_noop (fid : Str) :
    ∀ (ts : List (Str × Str)) (g : Graph),
      (∀ t ∈ ts, (fid, t) ∈ g.contains) →
      ts.foldl (fun h node => addEdge h fid node) g = g := by
  intro ts
  induction ts with
  | nil => intro g _; rfl
  | cons t0 ts2 ih =>
    intro g hall
    rw [List.foldl_cons, addEdge_noop (hall t0 (by simp))]
    exact ih g (fun t ht => hall t (by simp [ht]))

theorem mergeContains_files (g : Graph) (fid cid : Str) :
    (mergeContains g fid cid).files = g.files := by
  unfold mergeContains
  split
  · rw [foldAdd_files]
  · rfl

theorem mergeContains_chunks (g : Graph) (fid cid : Str) :
    (mergeContains g fid cid).chunks = g.chunks := by
  unfold mergeContains
  split
  · rw [foldAdd_chunks]
  · rfl

theorem mergeContains_contains_mono {g : Graph} {fid cid : Str}
    {x : Str × (Str × Str)} (h : x ∈ g.contains) :
    x ∈ (mergeContains g fid cid).contains := by
  unfold mergeContains
  split
  · exact foldAdd_contains_mono fid _ g x h
  · exact h

theorem mergeContains_covers {g : Graph} {fid cid : Str} (hf : fid ∈ g.files) :
    ∀ node ∈ g.chunks, node.1 = cid →
      (fid, node) ∈ (mergeContains g fid cid).contains := by
  intro node hn hcid
  unfold mergeContains
  rw [if_pos hf]
  exact foldAdd_covers fid _ g node (List.mem_filter.mpr ⟨hn, by simp [hcid]⟩)

theorem mergeContains_noop {g : Graph} {fid cid : Str}
    (hall : ∀ node ∈ g.chunks, node.1 = cid → (fid, node) ∈ g.contains) :
    mergeContains g fid cid = g := by
  unfold mergeContains
  split
  · apply foldAdd_noop
    intro t ht
    have := List.mem_filter.mp ht
    exact hall t this.1 (by simpa using this.2)
  · rfl

theorem mergeFile_mem (g : Graph) (fid : Str) : fid ∈ (mergeFile g fid).files := by
  unfold mergeFile
  split
  · assumption
  · simp

theorem mergeFile_mono {g : Graph} {fid f2 : Str} (h : f2 ∈ g.files) :
    f2 ∈ (mergeFile g fid).files := by
  unfold mergeFile
  split
  · exact h
  · simp [h]

theorem mergeFile_chunks (g : Graph) (fid : Str) : (mergeFile g fid).chunks = g.chunks := by
  unfold mergeFile
  split <;> rfl

theorem mergeFile_contains (g : Graph) (fid : Str) :
    (mergeFile g fid).contains = g.contains := by
  unfold mergeFile
  split <;> rfl

theorem mergeFile_noop {g : Graph} {fid : Str} (h : fid ∈ g.files) :
    mergeFile g fid = g := by
  unfold mergeFile
  rw [if_pos h]

theorem mergeChunk_mem (g : Graph) (cid text : Str) :
    (cid, text) ∈ (mergeChunk g cid text).chunks := by
  unfold mergeChunk
  split
  · assumption
  · simp

theorem mergeChunk_mono {g : Graph} {cid text : Str} {x : Str × Str}
    (h : x ∈ g.chunks) : x ∈ (mergeChunk g cid text).chunks := by
  unfold mergeChunk
  split
  · exact h
  · simp [h]

theorem mergeChunk_files (g : Graph) (cid text : Str) :
    (mergeChunk g cid text).files = g.files := by
  unfold mergeChunk
  split <;> rfl

theorem mergeChunk_contains (g : Graph) (cid text : Str) :
    (mergeChunk g cid text).contains = g.contains := by
  unfold mergeChunk
  split <;> rfl

theorem mergeChunk_chunks_sub {g : Graph} {cid text : Str} {x : Str × Str}
    (h : x ∈ (mergeChunk g cid text).chunks) : x ∈ g.chunks ∨ x = (cid, text) := by
  unfold mergeChunk at h
  split at h
  · exact Or.inl h
  · simpa using h

theorem mergeChunk_noop {g : Graph} {cid text : Str} (h : (cid, text) ∈ g.chunks) :
    mergeChunk g cid text = g := by
  unfold mergeChunk
  rw [if_pos h]

theorem collectionAdd_mem_self (recs : List ChromaRec) (id doc : Str) (v : List Int) :
    id ∈ (collectionAdd recs id doc v).map (fun r => r.id) := by
  unfold collectionAdd
  split
  · next h =>
    obtain ⟨r, hr, hid⟩ := List.any_eq_true.mp h
    simp at hid
    exact List.mem_map.mpr ⟨r, hr, hid⟩
  · simp

theorem collectionAdd_mem_mono {recs : List ChromaRec} {id doc x : Str} {v : List Int}
    (h : x ∈ recs.map (fun r => r.id)) :
    x ∈ (collectionAdd recs id doc v).map (fun r => r.id) := by
  unfold collectionAdd
  split
  · exact h
  · simp only [List.map_append]
    exact List.mem_append_left _ h

theorem collectionAdd_noop {recs : List ChromaRec} {id : Str} (doc : Str) (v : List Int)
    (h : id ∈ recs.map (fun r => r.id)) : collectionAdd recs id doc v = recs := by
  unfold collectionAdd
  rw [if_pos]
  rw [List.any_eq_true]
  obtain ⟨r, hr, hid⟩ := List.mem_map.mp h
  exact ⟨r, hr, by simp [hid]⟩

theorem writeChunk_chroma (fid : Str) (st : Stores) (p : Nat × Str) (v : List Int) :
    (writeChunk fid st p v).chroma = collectionAdd st.chroma (chunkId fid p.1) p.2 v := rfl

theorem writeChunk_graph (fid : Str) (st : Stores) (p : Nat × Str) (v : List Int) :
    (writeChunk fid st p v).graph =
      mergeContains (mergeChunk (mergeFile st.graph fid) (chunkId fid p.1) p.2)
        fid (chunkId fid p.1) := rfl

theorem writeChunk_written (fid : Str) (st : Stores) (p : Nat × Str) (v : List Int) :
    chunkWritten (writeChunk fid st p v) fid (chunkId fid p.1) p.2 := by
  refine ⟨?_, ?_, ?_, ?_⟩
  · show chunkId fid p.1 ∈ (writeChunk fid st p v).chroma.map (fun r => r.id)
    rw [writeChunk_chroma]
    exact collectionAdd_mem_self st.chroma (chunkId fid p.1) p.2 v
  · rw [writeChunk_graph, mergeContains_files, mergeChunk_files]
    exact mergeFile_mem st.graph fid
  · rw [writeChunk_graph, mergeContains_chunks]
    exact mergeChunk_mem _ _ _
  · intro node hn hcid
    rw [writeChunk_graph] at hn ⊢
    rw [mergeContains_chunks] at hn
    exact mergeContains_covers
      (by rw [mergeChunk_files]; exact mergeFile_mem st.graph fid) node hn hcid

theorem writeChunk_preserves {st : Stores} {fid cid text : Str}
    (h : chunkWritten st fid cid text) (p : Nat × Str) (v : List Int) :
    chunkWritten (writeChunk fid st p v) fid cid text := by
  obtain ⟨h1, h2, h3, h4⟩ := h
  refine ⟨?_, ?_, ?_, ?_⟩
  · show cid ∈ (writeChunk fid st p v).chroma.map (fun r => r.id)
    rw [writeChunk_chroma]
    exact collectionAdd_mem_mono h1
  · rw [writeChunk_graph, mergeContains_files, mergeChunk_files]
    exact mergeFile_mono h2
  · rw [writeChunk_graph, mergeContains_chunks]
    exact mergeChunk_mono (by rw [mergeFile_chunks]; exact h3)
  · intro node hn hcid
    rw [writeChunk_graph] at hn ⊢
    rw [mergeContains_chunks] at hn
    rcases mergeChunk_chunks_sub hn with hold | hnew
    · rw [mergeFile_chunks] at hold
      exact mergeContains_contains_mono
        (by rw [mergeChunk_contains, mergeFile_contains]; exact h4 node hold hcid)
    · subst hnew
      exact mergeContains_covers
        (by rw [mergeChunk_files]; exact mergeFile_mono h2) _ hn rfl

theorem writeChunk_noop {st : Stores} {fid : Str} {p : Nat × Str} {v : List Int}
    (h : chunkWritten st fid (chunkId fid p.1) p.2) : writeChunk fid st p v = st := by
  obtain ⟨h1, h2, h3, h4⟩ := h
  have hchroma : add_to_chroma st (chunkId fid p.1) p.2 v = st := by
    unfold add_to_chroma
    rw [collectionAdd_noop p.2 v h1]
  show add_to_neo4j (add_to_chroma st (chunkId fid p.1) p.2 v) fid (chunkId fid p.1) p.2 = st
  rw [hchroma]
  unfold add_to_neo4j
  rw [mergeFile_noop h2, mergeChunk_noop h3, mergeContains_noop h4]

theorem processChunks_preserves (emb : Str → Except PyErr (List Int)) (fid cid text : Str) :
    ∀ (ps : List (Nat × Str)) (st : Stores), chunkWritten st fid cid text →
      chunkWritten (processChunks emb fid ps st).1 fid cid text := by
  intro ps
  induction ps with
  | nil => intro st h; exact h
  | cons p rest ih =>
    intro st h
    obtain ⟨idx, c⟩ := p
    cases hemb : emb c with
    | error e => simpa [processChunks, hemb] using h
    | ok v =>
      simp only [processChunks, hemb]
      exact ih _ (writeChunk_preserves ⟨h.1, h.2.1, h.2.2.1, h.2.2.2⟩ (idx, c) v)

theorem processChunks_written (emb : Str → Except PyErr (List Int)) (fid : Str) :
    ∀ (ps : List (Nat × Str)) (st : Stores),
      (processChunks emb fid ps st).2.2 = none →
      ∀ p ∈ ps, chunkWritten (processChunks emb fid ps st).1 fid (chunkId fid p.1) p.2 := by
  intro ps
  induction ps with
  | nil => intro st h p hp; simp at hp
  | cons p0 rest ih =>
    intro st h p hp
    obtain ⟨idx, c⟩ := p0
    cases hemb : emb c with
    | error e => simp [processChunks, hemb] at h
    | ok v =>
      simp only [processChunks, hemb] at h ⊢
      rcases List.mem_cons.mp hp with hEq | hmem
      · subst hEq
        exact processChunks_preserves emb fid _ _ rest _ (writeChunk_written fid st (idx, c) v)
      · exact ih _ h p hmem

theorem processChunks_embOk (emb : Str → Except PyErr (List Int)) (fid : Str) :
    ∀ (ps : List (Nat × Str)) (st : Stores),
      (processChunks emb fid ps st).2.2 = none →
      ∀ p ∈ ps, ∃ v, emb p.2 = .ok v := by
  intro ps
  induction ps with
  | nil => intro st h p hp; simp at hp
  | cons p0 rest ih =>
    intro st h p hp
    obtain ⟨idx, c⟩ := p0
    cases hemb : emb c with
    | error e => simp [processChunks, hemb] at h
    | ok v =>
      simp only [processChunks, hemb] at h
      rcases List.mem_cons.mp hp with hEq | hmem
      · subst hEq
        exact ⟨v, hemb⟩
      · exact ih _ h p hmem

theorem processChunks_calls (emb : Str → Except PyErr (List Int)) (fid : Str) :
    ∀ (ps : List (Nat × Str)) (st : Stores),
      (processChunks emb fid ps st).2.2 = none →
      (processChunks emb fid ps st).2.1 = ps.map Prod.snd := by
  intro ps
  induction ps with
  | nil => intro st h; rfl
  | cons p0 rest ih =>
    intro st h
    obtain ⟨idx, c⟩ := p0
    cases hemb : emb c with
    | error e => simp [processChunks, hemb] at h
    | ok v =>
      simp only [processChunks, hemb] at h ⊢
      rw [List.map_cons]
      rw [ih _ h]

theorem processChunks_replay_aux (emb : Str → Except PyErr (List Int)) (fid : Str) :
    ∀ (ps : List (Nat × Str)) (S : Stores),
      (∀ p ∈ ps, chunkWritten S fid (chunkId fid p.1) p.2) →
      (∀ p ∈ ps, ∃ v, emb p.2 = .ok v) →
      processChunks emb fid ps S = (S, ps.map Prod.snd, none) := by
  intro ps
  induction ps with
  | nil => intro S _ _; rfl
  | cons p0 rest ih =>
    intro S hall hok
    obtain ⟨idx, c⟩ := p0
    obtain ⟨v, hv⟩ := hok (idx, c) (by simp)
    simp only [processChunks, hv]
    rw [writeChunk_noop (hall (idx, c) (by simp))]
    rw [ih S (fun p hp => hall p (by simp [hp])) (fun p hp => hok p (by simp [hp]))]
    rfl

theorem processChunks_replay (emb : Str → Except PyErr (List Int)) (fid : Str)
    (ps : List (Nat × Str)) (st : Stores)
    (h : (processChunks emb fid ps st).2.2 = none) :
    processChunks emb fid ps (processChunks emb fid ps st).1 =
      ((processChunks emb fid ps st).1, (processChunks emb fid ps st).2.1, none) := by
  rw [processChunks_replay_aux emb fid ps _
    (processChunks_written emb fid ps st h) (processChunks_embOk emb fid ps st h)]
  rw [processChunks_calls emb fid ps st h]

/-- Claim C6, amended: re-processing the same unchanged file is idempotent at
the level of the whole outcome — after a successful ingestion, running
`process_file` again over the resulting stores produces the identical outcome
(same chunk ids, no duplicate chroma records, no duplicate graph nodes or
edges: every `add` hits an existing id and is skipped, every `MERGE`
matches). However, the chroma write is `add`, not an overwriting upsert: a
write to an already-present id leaves the old record, it does not overwrite
(see the counterexample). -/
theorem c6_reingest_idempotent (fs : Str → Option (List Nat))
    (pdfX ocrX : List Nat → Except PyErr Str) (emb : Str → Except PyErr (List Int))
    (st : Stores) (path : Str)
    (h : (process_file fs pdfX ocrX emb st path).err = none) :
    process_file fs pdfX ocrX emb ((process_file fs pdfX ocrX emb st path).state) path =
      process_file fs pdfX ocrX emb st path := by
  unfold process_file at h ⊢
  cases hd : dispatchExtract fs pdfX ocrX path with
  | unsupported => simp only [hd]
  | failed e =>
    simp only [hd] at h
    exact absurd h (by simp)
  | extracted text =>
    simp only [hd] at h ⊢
    cases hc : chunk_text text with
    | error e =>
      simp only [hc] at h
      exact absurd h (by simp)
    | ok chunks =>
      simp only [hc] at h ⊢
      cases he : (processChunks emb (basename path) (pyEnumerate chunks) st).2.2 with
      | some e =>
        simp only [he] at h
        exact absurd h (by simp)
      | none =>
        simp only [he]
        have hrep := processChunks_replay emb (basename path) (pyEnumerate chunks) st he
        simp only [hrep]

theorem c6_witness :
    (process_file fsHello pdfNone pdfNone embOne emptyStores "doc1.txt".data).err = none ∧
      process_file fsHello pdfNone pdfNone embOne
          ((process_file fsHello pdfNone pdfNone embOne emptyStores "doc1.txt".data).state)
          "doc1.txt".data =
        process_file fsHello pdfNone pdfNone embOne emptyStores "doc1.txt".data :=
  ⟨by decide,
    c6_reingest_idempotent fsHello pdfNone pdfNone embOne emptyStores "doc1.txt".data
      (by decide)⟩

/-- Claim C6, counterexample: the vector-store write is chroma `add`, which
does NOT overwrite an already-present id — after adding id "x" with document
"a" and then id "x" again with document "b", the collection still holds the
record with document "a" (the duplicate insert is skipped), not "b" as an
overwriting upsert would leave. -/
theorem c6_counterexample :
    collectionAdd (collectionAdd [] "x".data "a".data [1]) "x".data "b".data [2] =
        [⟨"x".data, "a".data, [1], none⟩] ∧
      collectionAdd (collectionAdd [] "x".data "a".data [1]) "x".data "b".data [2] ≠
        [⟨"x".data, "b".data, [2], none⟩] := by
  decide

/-- Claim C1 (code bug): the Deleted handler iterates
`collection.get()['metadatas']` and subscripts each entry with `['id']`, but
`add_to_chroma` never stores metadata, so every entry is `None` and the first
record in the collection makes the handler raise `TypeError` before deleting
anything. On the store holding `doc1.txt`'s single chunk, deleting
`doc1.txt` raises and leaves the chunk id and the File node in place; only
on a completely empty collection does deletion run to completion. -/
theorem c1_delete_crash :
    on_deleted c1State ⟨"knowledge_base/doc1.txt".data, false⟩ =
        ⟨c1State, ⟨[], []⟩, some .typeError⟩ ∧
      "doc1.txt_chunk_0".data ∈ chromaIds c1State ∧
      "doc1.txt".data ∈ c1State.graph.files ∧
      on_deleted emptyStores ⟨"knowledge_base/doc1.txt".data, false⟩ =
        ⟨emptyStores, ⟨[], [deletedMsg "doc1.txt".data]⟩, none⟩ := by
  decide

/-- Claim C4 (code bug): deletion precision fails twice over. The selection
predicate in the source is `doc['id'].startswith(file_id)` — the prefix is
the bare file id, not `file_id + "_chunk_"`, so `doc1.txt.bak_chunk_0`
(a chunk of the different file `doc1.txt.bak`) satisfies the predicate for a
delete of `doc1.txt`; and before the predicate can even be applied the
handler raises `TypeError` (metadata entries are `None`), so the delete
removes nothing at all rather than exactly `doc1.txt`'s chunks. -/
theorem c4_delete_imprecise :
    pyStartswith "doc1.txt.bak_chunk_0".data "doc1.txt".data = true ∧
      on_deleted c4State ⟨"knowledge_base/doc1.txt".data, false⟩ =
        ⟨c4State, ⟨[], []⟩, some .typeError⟩ := by
  decide
